import Mathlib

/-!
Verification development for the Raddish in-memory key-value server.

The Python source is shallowly embedded: Python dicts become
insertion-ordered association lists over String keys, wall-clock time
becomes an explicit natural-number parameter threaded through each
operation, and operations that may raise return Option.  Locks and
background threads are not represented; each method body is translated
as the sequential code it runs under the lock.
-/

namespace Raddish

/-! ### Python dict primitives (insertion-ordered association lists)

A CPython dict preserves insertion order; assigning to an existing key
updates the value in place (the key keeps its position), assigning a
fresh key appends it, and deletion removes the single binding.
-/

def dictGet {β : Type} : List (String × β) → String → Option β
  | [], _ => Option.none
  | (k1, v1) :: rest, k => if k1 = k then some v1 else dictGet rest k

def dictSet {β : Type} : List (String × β) → String → β → List (String × β)
  | [], k, v => [(k, v)]
  | (k1, v1) :: rest, k, v =>
      if k1 = k then (k1, v) :: rest else (k1, v1) :: dictSet rest k v

def dictDel {β : Type} : List (String × β) → String → List (String × β)
  | [], _ => []
  | (k1, v1) :: rest, k => if k1 = k then rest else (k1, v1) :: dictDel rest k

def dictKeys {β : Type} (l : List (String × β)) : List String :=
  l.map Prod.fst

@[simp] theorem dictGet_nil {β : Type} (k : String) :
    dictGet ([] : List (String × β)) k = Option.none := rfl

@[simp] theorem dictGet_cons {β : Type} (k1 k : String) (v1 : β) (rest : List (String × β)) :
    dictGet ((k1, v1) :: rest) k = if k1 = k then some v1 else dictGet rest k := rfl

@[simp] theorem dictKeys_nil {β : Type} : dictKeys ([] : List (String × β)) = [] := rfl

@[simp] theorem dictKeys_cons {β : Type} (k1 : String) (v1 : β) (rest : List (String × β)) :
    dictKeys ((k1, v1) :: rest) = k1 :: dictKeys rest := rfl

@[simp] theorem dictKeys_append {β : Type} (l1 l2 : List (String × β)) :
    dictKeys (l1 ++ l2) = dictKeys l1 ++ dictKeys l2 := by
  simp [dictKeys]

theorem dictGet_dictSet_self {β : Type} (l : List (String × β)) (k : String) (v : β) :
    dictGet (dictSet l k v) k = some v := by
  induction l with
  | nil => simp [dictSet]
  | cons p rest ih =>
      obtain ⟨k1, v1⟩ := p
      by_cases h : k1 = k
      · simp [dictSet, h]
      · simp [dictSet, h, ih]

theorem dictGet_dictSet_ne {β : Type} (l : List (String × β)) (k k2 : String) (v : β)
    (h : k ≠ k2) : dictGet (dictSet l k v) k2 = dictGet l k2 := by
  induction l with
  | nil => simp [dictSet, h]
  | cons p rest ih =>
      obtain ⟨k1, v1⟩ := p
      by_cases h1 : k1 = k
      · subst h1
        simp [dictSet, h]
      · simp [dictSet, h1, ih]

theorem dictKeys_dictSet_mem {β : Type} (l : List (String × β)) (k : String) (v : β)
    (h : k ∈ dictKeys l) : dictKeys (dictSet l k v) = dictKeys l := by
  induction l with
  | nil => simp at h
  | cons p rest ih =>
      obtain ⟨k1, v1⟩ := p
      by_cases h1 : k1 = k
      · simp [dictSet, h1]
      · have hmem : k ∈ dictKeys rest := by
          simp at h
          rcases h with h | h
          · exact absurd h.symm h1
          · exact h
        simp [dictSet, h1, ih hmem]

theorem dictKeys_dictSet_not_mem {β : Type} (l : List (String × β)) (k : String) (v : β)
    (h : k ∉ dictKeys l) : dictKeys (dictSet l k v) = dictKeys l ++ [k] := by
  induction l with
  | nil => simp [dictSet]
  | cons p rest ih =>
      obtain ⟨k1, v1⟩ := p
      have h1 : k1 ≠ k := by
        intro hk
        exact h (by simp [hk])
      have h2 : k ∉ dictKeys rest := by
        intro hk
        exact h (by simp [hk])
      simp [dictSet, h1, ih h2]

theorem dictGet_eq_none_of_not_mem {β : Type} (l : List (String × β)) (k : String)
    (h : k ∉ dictKeys l) : dictGet l k = Option.none := by
  induction l with
  | nil => rfl
  | cons p rest ih =>
      obtain ⟨k1, v1⟩ := p
      have h1 : k1 ≠ k := fun hk => h (by simp [hk])
      have h2 : k ∉ dictKeys rest := fun hk => h (by simp [hk])
      simp [h1, ih h2]

theorem dictGet_isSome_of_mem {β : Type} (l : List (String × β)) (k : String)
    (h : k ∈ dictKeys l) : (dictGet l k).isSome = true := by
  induction l with
  | nil => simp at h
  | cons p rest ih =>
      obtain ⟨k1, v1⟩ := p
      by_cases h1 : k1 = k
      · simp [h1]
      · have hmem : k ∈ dictKeys rest := by
          simp at h
          rcases h with h | h
          · exact absurd h.symm h1
          · exact h
        simp [h1, ih hmem]

theorem mem_dictKeys_of_isSome {β : Type} (l : List (String × β)) (k : String)
    (h : (dictGet l k).isSome = true) : k ∈ dictKeys l := by
  induction l with
  | nil => simp [dictGet] at h
  | cons p rest ih =>
      obtain ⟨k1, v1⟩ := p
      by_cases h1 : k1 = k
      · simp [h1]
      · simp [h1] at h
        simp
        exact Or.inr (ih h)

theorem dictNodup_dictSet {β : Type} (l : List (String × β)) (k : String) (v : β)
    (h : (dictKeys l).Nodup) : (dictKeys (dictSet l k v)).Nodup := by
  by_cases hm : k ∈ dictKeys l
  · rwa [dictKeys_dictSet_mem l k v hm]
  · rw [dictKeys_dictSet_not_mem l k v hm]
    refine List.Nodup.append h (by simp) ?_
    intro a ha hb
    simp at hb
    exact hm (hb ▸ ha)

theorem dictGet_dictDel_self {β : Type} (l : List (String × β)) (k : String)
    (h : (dictKeys l).Nodup) : dictGet (dictDel l k) k = Option.none := by
  induction l with
  | nil => rfl
  | cons p rest ih =>
      obtain ⟨k1, v1⟩ := p
      simp only [dictKeys_cons, List.nodup_cons] at h
      by_cases h1 : k1 = k
      · have h2 : k ∉ dictKeys rest := by
          rw [← h1]
          exact h.1
        simp [dictDel, h1, dictGet_eq_none_of_not_mem rest k h2]
      · simp [dictDel, h1, ih h.2]

theorem dictGet_dictDel_ne {β : Type} (l : List (String × β)) (k k2 : String)
    (h : k ≠ k2) : dictGet (dictDel l k) k2 = dictGet l k2 := by
  induction l with
  | nil => rfl
  | cons p rest ih =>
      obtain ⟨k1, v1⟩ := p
      by_cases h1 : k1 = k
      · subst h1
        simp [dictDel, h]
      · simp [dictDel, h1, ih]

theorem dictSet_eq_append_of_not_mem {β : Type} (l : List (String × β)) (k : String) (v : β)
    (h : k ∉ dictKeys l) : dictSet l k v = l ++ [(k, v)] := by
  induction l with
  | nil => rfl
  | cons p rest ih =>
      obtain ⟨k1, v1⟩ := p
      have h1 : k1 ≠ k := fun hk => h (by simp [hk])
      have h2 : k ∉ dictKeys rest := fun hk => h (by simp [hk])
      simp [dictSet, h1, ih h2]

/-- The fold underlying the Python dict literal `\x7bkey: entry, **old\x7d`:
every binding of `old` is merged, in order, into the singleton dict. -/
def dictMerge {β : Type} (acc l : List (String × β)) : List (String × β) :=
  l.foldl (fun a p => dictSet a p.1 p.2) acc

theorem dictMerge_single {β : Type} (l : List (String × β)) (k : String) (e : β)
    (done : List (String × β))
    (hnd : (dictKeys l).Nodup)
    (hdisj : ∀ a ∈ dictKeys l, a ∉ dictKeys done)
    (hk : k ∉ dictKeys done) :
    dictMerge ((k, e) :: done) l =
      (k, (dictGet l k).getD e) :: (done ++ l.filter (fun p => p.1 ≠ k)) := by
  induction l generalizing e done with
  | nil => simp [dictMerge]
  | cons p rest ih =>
      obtain ⟨k1, v1⟩ := p
      simp only [dictKeys_cons, List.nodup_cons] at hnd
      by_cases h1 : k1 = k
      · have hstep : dictSet ((k, e) :: done) k1 v1 = (k, v1) :: done := by
          simp [dictSet, h1.symm]
        have hrest : dictGet rest k = Option.none := by
          refine dictGet_eq_none_of_not_mem rest k ?_
          rw [← h1]
          exact hnd.1
        have hmain := ih v1 done hnd.2 (fun a ha => hdisj a (by simp [ha])) hk
        simp only [dictMerge, List.foldl_cons] at hmain ⊢
        rw [hstep, hmain, hrest]
        simp [h1]
      · have hne : ¬ k = k1 := fun hx => h1 hx.symm
        have hk1 : k1 ∉ dictKeys done := hdisj k1 (by simp)
        have hstep : dictSet ((k, e) :: done) k1 v1 = (k, e) :: (done ++ [(k1, v1)]) := by
          simp [dictSet, hne, dictSet_eq_append_of_not_mem done k1 v1 hk1]
        have hdisj2 : ∀ a ∈ dictKeys rest, a ∉ dictKeys (done ++ [(k1, v1)]) := by
          intro a ha hmem
          have hsplit : a ∈ dictKeys done ∨ a = k1 := by simpa using hmem
          rcases hsplit with hx | hx
          · exact hdisj a (by simp [ha]) hx
          · exact hnd.1 (hx ▸ ha)
        have hk2 : k ∉ dictKeys (done ++ [(k1, v1)]) := by
          intro hmem
          have hsplit : k ∈ dictKeys done ∨ k = k1 := by simpa using hmem
          rcases hsplit with hx | hx
          · exact hk hx
          · exact hne hx
        have hmain := ih e (done ++ [(k1, v1)]) hnd.2 hdisj2 hk2
        simp only [dictMerge, List.foldl_cons] at hmain ⊢
        rw [hstep, hmain]
        simp [h1, hne, List.filter_cons]

theorem dictKeys_filter {β : Type} (l : List (String × β)) (q : String → Bool) :
    dictKeys (l.filter (fun p => q p.1)) = (dictKeys l).filter q := by
  induction l with
  | nil => rfl
  | cons p rest ih =>
      obtain ⟨k1, v1⟩ := p
      by_cases h1 : q k1
      · simp [List.filter_cons, h1, ih]
      · simp [List.filter_cons, h1, ih]


/-! ### The Python value universe

Values flowing through the server: the Python singleton None, strings,
integers and dicts (the inner mapping of a named cache).  Matching the
source, a stored None is indistinguishable from the absent-key default. -/

inductive PyVal : Type where
  | none : PyVal
  | str : String → PyVal
  | int : Int → PyVal
  | dict : List (String × PyVal) → PyVal

/-- The Python test `value is None`. -/
def PyVal.isNone : PyVal → Bool
  | PyVal.none => true
  | _ => false

/-! ### ExpiringStore (src/src/expiring_store.py)

One entry of the store: the tuple `(value, expiry)` where `expiry` is an
absolute deadline or None.  Wall-clock time is passed explicitly as `now`
to each operation that reads `time.time()`. -/

structure Entry where
  value : PyVal
  expiry : Option Nat

structure ExpiringStore where
  store : List (String × Entry)
  default_ttl : Option Nat

/-- The read-path liveness test `expiry is None or expiry > time.time()`. -/
def aliveForGet : Option Nat → Nat → Bool
  | Option.none, _ => true
  | some t, now => decide (now < t)

/-- The sweep-path test `expiry and expiry <= now` (note: a literal
deadline of 0 is falsy in Python and is never swept). -/
def expiredForCleanup : Option Nat → Nat → Bool
  | Option.none, _ => false
  | some t, now => decide (t ≠ 0) && decide (t ≤ now)

/-- Absolute deadline from a relative ttl: `time.time() + ttl` or None. -/
def ttlExpiry (ttl : Option Nat) (now : Nat) : Option Nat :=
  match ttl with
  | some t => some (now + t)
  | Option.none => Option.none

/-- `ExpiringStore.set`: the effective ttl falls back to `default_ttl`. -/
def ExpiringStore.set (s : ExpiringStore) (key : String) (value : PyVal)
    (ttl : Option Nat) (now : Nat) : ExpiringStore :=
  let t := match ttl with
    | some t => some t
    | Option.none => s.default_ttl
  { s with store := dictSet s.store key ⟨value, ttlExpiry t now⟩ }

/-- `ExpiringStore.get`: soft miss; an expired entry is deleted eagerly
and the default is returned. -/
def ExpiringStore.get (s : ExpiringStore) (key : String) (default : PyVal)
    (now : Nat) : PyVal × ExpiringStore :=
  match dictGet s.store key with
  | Option.none => (default, s)
  | some e =>
      if aliveForGet e.expiry now then (e.value, s)
      else (default, { s with store := dictDel s.store key })

/-- `ExpiringStore.prepend`: rebuilds the dict as the literal
`\x7bkey: (value, expiry), **self._store\x7d`; `default_ttl` is not consulted. -/
def ExpiringStore.prepend (s : ExpiringStore) (key : String) (value : PyVal)
    (ttl : Option Nat) (now : Nat) : ExpiringStore :=
  { s with store := dictMerge [(key, ⟨value, ttlExpiry ttl now⟩)] s.store }

/-- `ExpiringStore.cleanup`: removes every entry whose deadline has passed. -/
def ExpiringStore.cleanup (s : ExpiringStore) (now : Nat) : ExpiringStore :=
  { s with store := s.store.filter (fun p => !(expiredForCleanup p.2.expiry now)) }

/-- `ExpiringStore.keys`: forces a sweep, then snapshots the key list. -/
def ExpiringStore.keys (s : ExpiringStore) (now : Nat) : List String × ExpiringStore :=
  let s2 := s.cleanup now
  (dictKeys s2.store, s2)

/-- `ExpiringStore.__contains__`: `self.get(key) is not None`. -/
def ExpiringStore.contains (s : ExpiringStore) (key : String) (now : Nat) :
    Bool × ExpiringStore :=
  let r := s.get key PyVal.none now
  (!(r.1.isNone), r.2)

/-- `ExpiringStore.__delitem__`: checks raw dict membership (no expiry
test); an absent key raises KeyError, modelled as Option.none. -/
def ExpiringStore.delitem (s : ExpiringStore) (key : String) : Option ExpiringStore :=
  if (dictGet s.store key).isSome then some { s with store := dictDel s.store key }
  else Option.none

/-- `ExpiringStore.clear`. -/
def ExpiringStore.clear (s : ExpiringStore) : ExpiringStore :=
  { s with store := [] }

/-! ### Derived facts about prepend -/

theorem dictKeys_filter_ne {β : Type} (l : List (String × β)) (k : String) :
    dictKeys (l.filter (fun p => p.1 ≠ k)) = (dictKeys l).filter (fun a => a ≠ k) :=
  dictKeys_filter l (fun a => decide (a ≠ k))

theorem prepend_store_eq (s : ExpiringStore) (key : String) (value : PyVal)
    (ttl : Option Nat) (now : Nat) (hnd : (dictKeys s.store).Nodup) :
    (s.prepend key value ttl now).store =
      (key, (dictGet s.store key).getD ⟨value, ttlExpiry ttl now⟩) ::
        s.store.filter (fun p => p.1 ≠ key) := by
  have h := dictMerge_single s.store key ⟨value, ttlExpiry ttl now⟩ [] hnd
    (by simp) (by simp)
  simpa [ExpiringStore.prepend] using h

theorem prepend_raw_keys (s : ExpiringStore) (key : String) (value : PyVal)
    (ttl : Option Nat) (now : Nat) (hnd : (dictKeys s.store).Nodup) :
    dictKeys (s.prepend key value ttl now).store =
      key :: (dictKeys s.store).filter (fun a => a ≠ key) := by
  rw [prepend_store_eq s key value ttl now hnd, dictKeys_cons, dictKeys_filter_ne]

theorem prepend_nodup (s : ExpiringStore) (key : String) (value : PyVal)
    (ttl : Option Nat) (now : Nat) (hnd : (dictKeys s.store).Nodup) :
    (dictKeys (s.prepend key value ttl now).store).Nodup := by
  rw [prepend_raw_keys s key value ttl now hnd]
  refine List.nodup_cons.mpr ⟨?_, List.Nodup.filter _ hnd⟩
  intro hm
  have hcond := (List.mem_filter.mp hm).2
  simp at hcond

theorem prepend_keys_front (s : ExpiringStore) (key : String) (value : PyVal)
    (ttl : Option Nat) (now now2 : Nat)
    (hnd : (dictKeys s.store).Nodup)
    (halive : expiredForCleanup
        ((dictGet s.store key).getD ⟨value, ttlExpiry ttl now⟩).expiry now2 = false) :
    ((s.prepend key value ttl now).keys now2).1 =
      key :: ((s.keys now2).1.filter (fun a => a ≠ key)) := by
  unfold ExpiringStore.keys ExpiringStore.cleanup
  simp only
  rw [prepend_store_eq s key value ttl now hnd]
  rw [List.filter_cons, if_pos (by simp [halive])]
  simp only [dictKeys_cons]
  rw [List.filter_comm]
  rw [dictKeys_filter_ne]

theorem dictKeys_nodup_filter {β : Type} (l : List (String × β)) (f : String × β → Bool)
    (h : (dictKeys l).Nodup) : (dictKeys (l.filter f)).Nodup :=
  List.Nodup.sublist (List.Sublist.map Prod.fst (List.filter_sublist l)) h

theorem keys_nodup (s : ExpiringStore) (now : Nat) (hnd : (dictKeys s.store).Nodup) :
    (dictKeys (s.cleanup now).store).Nodup :=
  dictKeys_nodup_filter s.store _ hnd

/-! ### Claims C4, C5, C6, C9, C10: the expiring store -/

/-- A concrete one-entry store used by several concrete evaluations:
the key `k` holds `"v"` with absolute deadline 5. -/
def sampleStore : ExpiringStore := ⟨[("k", ⟨PyVal.str "v", some 5⟩)], Option.none⟩

/-- An empty store with no default ttl. -/
def emptyStore : ExpiringStore := ⟨[], Option.none⟩

/-- C4 counterexample: at time 10 the entry for `k` (deadline 5) is
expired-but-unswept, yet `__delitem__` succeeds instead of raising the
claimed not-found error, because it tests raw dict membership. -/
theorem C4_counterexample :
    expiredForCleanup (some 5) 10 = true ∧ aliveForGet (some 5) 10 = false ∧
      (sampleStore.delitem "k").isSome = true := by
  refine ⟨by decide, by decide, ?_⟩
  rfl

/-- C4 (amended): `delete` succeeds exactly on raw-present keys —
including expired-but-unswept ones — and raises not-found exactly when
no entry is stored at all; on success the binding for the key is gone
and every other key is untouched. -/
theorem C4_delitem_raw_presence (s : ExpiringStore) (k : String)
    (hnd : (dictKeys s.store).Nodup) :
    ((s.delitem k).isSome = (dictGet s.store k).isSome)
    ∧ (∀ s2, s.delitem k = some s2 →
        dictGet s2.store k = Option.none ∧
        ∀ k2, k2 ≠ k → dictGet s2.store k2 = dictGet s.store k2) := by
  constructor
  · by_cases h : (dictGet s.store k).isSome
    · simp [ExpiringStore.delitem, h]
    · simp [ExpiringStore.delitem, h]
  · intro s2 hs2
    by_cases h : (dictGet s.store k).isSome
    · simp only [ExpiringStore.delitem, h, if_pos] at hs2
      cases hs2
      refine ⟨dictGet_dictDel_self s.store k hnd, ?_⟩
      intro k2 hk2
      exact dictGet_dictDel_ne s.store k k2 (fun hx => hk2 hx.symm)
    · simp [ExpiringStore.delitem, h] at hs2

/-- C4 witness: the amended theorem applied to the concrete store. -/
theorem C4_witness :
    ((sampleStore.delitem "k").isSome = (dictGet sampleStore.store "k").isSome) :=
  (C4_delitem_raw_presence sampleStore "k" (by decide)).1

/-- C5: `get` returns the default on a missing key; returns the stored
value unchanged on a present entry that is unexpired (no deadline, or
deadline strictly in the future); and on an entry whose deadline has
passed it returns the default after eagerly removing the entry, leaving
all other keys untouched. -/
theorem C5_get_soft_miss (s : ExpiringStore) (k : String) (d : PyVal) (now : Nat)
    (hnd : (dictKeys s.store).Nodup) :
    (dictGet s.store k = Option.none → s.get k d now = (d, s))
    ∧ (∀ v, dictGet s.store k = some ⟨v, Option.none⟩ → s.get k d now = (v, s))
    ∧ (∀ v t, dictGet s.store k = some ⟨v, some t⟩ → now < t → s.get k d now = (v, s))
    ∧ (∀ v t, dictGet s.store k = some ⟨v, some t⟩ → t ≤ now →
        (s.get k d now).1 = d
        ∧ dictGet (s.get k d now).2.store k = Option.none
        ∧ ∀ k2, k2 ≠ k → dictGet (s.get k d now).2.store k2 = dictGet s.store k2) := by
  refine ⟨?_, ?_, ?_, ?_⟩
  · intro h
    simp [ExpiringStore.get, h]
  · intro v h
    simp [ExpiringStore.get, h, aliveForGet]
  · intro v t h hlt
    simp [ExpiringStore.get, h, aliveForGet, hlt]
  · intro v t h hle
    have hdead : aliveForGet (some t) now = false := by
      simp [aliveForGet]
      omega
    refine ⟨?_, ?_, ?_⟩
    · simp [ExpiringStore.get, h, hdead]
    · simp only [ExpiringStore.get, h, hdead, Bool.false_eq_true, if_false]
      exact dictGet_dictDel_self s.store k hnd
    · intro k2 hk2
      simp only [ExpiringStore.get, h, hdead, Bool.false_eq_true, if_false]
      exact dictGet_dictDel_ne s.store k k2 (fun hx => hk2 hx.symm)

/-- C5 witness: the expired-entry case evaluated on the concrete store
at time 10 (deadline 5). -/
theorem C5_witness :
    (sampleStore.get "k" (PyVal.str "d") 10).1 = PyVal.str "d"
    ∧ dictGet (sampleStore.get "k" (PyVal.str "d") 10).2.store "k" = Option.none := by
  have h := (C5_get_soft_miss sampleStore "k" (PyVal.str "d") 10 (by decide)).2.2.2
    (PyVal.str "v") 5 rfl (by decide)
  exact ⟨h.1, h.2.1⟩

/-- C6: `prepend` places the key at the front — in the raw dict order,
and in the order observed via `keys()` whenever the retained entry
survives the sweep — while every other key keeps its relative order
(the tail is an order-preserving filter); in particular, after three
prepends of distinct fresh keys with no ttl, `keys()` begins with
`k3, k2, k1`. -/
theorem C6_prepend_front (s : ExpiringStore) (key : String) (value : PyVal)
    (ttl : Option Nat) (now now2 : Nat)
    (hnd : (dictKeys s.store).Nodup) :
    (dictKeys (s.prepend key value ttl now).store =
        key :: (dictKeys s.store).filter (fun a => a ≠ key))
    ∧ (expiredForCleanup
          ((dictGet s.store key).getD ⟨value, ttlExpiry ttl now⟩).expiry now2 = false →
        ((s.prepend key value ttl now).keys now2).1 =
          key :: ((s.keys now2).1.filter (fun a => a ≠ key)))
    ∧ (∀ k1 k2 k3 v1 v2 v3,
        k1 ∉ dictKeys s.store → k2 ∉ dictKeys s.store → k3 ∉ dictKeys s.store →
        k1 ≠ k2 → k1 ≠ k3 → k2 ≠ k3 →
        ∃ rest,
          ((((s.prepend k1 v1 Option.none now).prepend k2 v2 Option.none now).prepend
              k3 v3 Option.none now).keys now2).1 = k3 :: k2 :: k1 :: rest) := by
  refine ⟨prepend_raw_keys s key value ttl now hnd, ?_, ?_⟩
  · intro halive
    exact prepend_keys_front s key value ttl now now2 hnd halive
  · intro k1 k2 k3 v1 v2 v3 hf1 hf2 hf3 h12 h13 h23
    set s1 := s.prepend k1 v1 Option.none now with hs1
    set s2 := s1.prepend k2 v2 Option.none now with hs2
    have hnd1 : (dictKeys s1.store).Nodup := prepend_nodup s k1 v1 Option.none now hnd
    have hnd2 : (dictKeys s2.store).Nodup := prepend_nodup s1 k2 v2 Option.none now hnd1
    have hraw1 : dictKeys s1.store = k1 :: (dictKeys s.store).filter (fun a => a ≠ k1) :=
      prepend_raw_keys s k1 v1 Option.none now hnd
    have hf2x : k2 ∉ dictKeys s1.store := by
      rw [hraw1]
      intro hm
      rcases List.mem_cons.mp hm with hx | hx
      · exact h12 hx.symm
      · exact hf2 (List.mem_of_mem_filter hx)
    have hraw2 : dictKeys s2.store = k2 :: (dictKeys s1.store).filter (fun a => a ≠ k2) :=
      prepend_raw_keys s1 k2 v2 Option.none now hnd1
    have hf3x : k3 ∉ dictKeys s2.store := by
      rw [hraw2]
      intro hm
      rcases List.mem_cons.mp hm with hx | hx
      · exact h23 hx.symm
      · have hmem := List.mem_of_mem_filter hx
        rw [hraw1] at hmem
        rcases List.mem_cons.mp hmem with hy | hy
        · exact h13 hy.symm
        · exact hf3 (List.mem_of_mem_filter hy)
    have hget1 : dictGet s.store k1 = Option.none := dictGet_eq_none_of_not_mem _ _ hf1
    have hget2 : dictGet s1.store k2 = Option.none := dictGet_eq_none_of_not_mem _ _ hf2x
    have hget3 : dictGet s2.store k3 = Option.none := dictGet_eq_none_of_not_mem _ _ hf3x
    have hk1 := prepend_keys_front s k1 v1 Option.none now now2 hnd
      (by rw [hget1]; rfl)
    rw [← hs1] at hk1
    have hk2 := prepend_keys_front s1 k2 v2 Option.none now now2 hnd1
      (by rw [hget2]; rfl)
    rw [← hs2] at hk2
    have hk3 := prepend_keys_front s2 k3 v3 Option.none now now2 hnd2
      (by rw [hget3]; rfl)
    refine ⟨(((s.keys now2).1.filter (fun a => a ≠ k1)).filter
        (fun a => a ≠ k2)).filter (fun a => a ≠ k3), ?_⟩
    rw [hk3, hk2, hk1]
    simp [List.filter_cons, h12, h13, h23, Ne.symm h12, Ne.symm h13, Ne.symm h23]

/-- C6 witness: three LPUSH-style prepends of fresh keys onto the empty
store, observed at time 0. -/
theorem C6_witness :
    ∃ rest,
      ((((emptyStore.prepend "a" (PyVal.str "1") Option.none 0).prepend "b"
          (PyVal.str "2") Option.none 0).prepend "c" (PyVal.str "3")
          Option.none 0).keys 0).1 = "c" :: "b" :: "a" :: rest :=
  (C6_prepend_front emptyStore "x" PyVal.none Option.none 0 0 (by decide)).2.2
    "a" "b" "c" (PyVal.str "1") (PyVal.str "2") (PyVal.str "3")
    (by decide) (by decide) (by decide) (by decide) (by decide) (by decide)

/-- C9: prepending an existing key keeps the previously stored value and
expiry (the dict-literal rebuild lets the old tuple win) while moving
the key to the front of the order; a later `get` therefore returns the
old value, and the ttl supplied to `prepend` is discarded. -/
theorem C9_prepend_keeps_old_entry (s : ExpiringStore) (k : String)
    (vOld vNew d : PyVal) (eOld ttl : Option Nat) (now now2 : Nat)
    (hnd : (dictKeys s.store).Nodup)
    (hold : dictGet s.store k = some ⟨vOld, eOld⟩) :
    (dictGet (s.prepend k vNew ttl now).store k = some ⟨vOld, eOld⟩)
    ∧ (dictKeys (s.prepend k vNew ttl now).store =
        k :: (dictKeys s.store).filter (fun a => a ≠ k))
    ∧ (aliveForGet eOld now2 = true →
        ((s.prepend k vNew ttl now).get k d now2).1 = vOld) := by
  have hstore := prepend_store_eq s k vNew ttl now hnd
  have hhead : dictGet (s.prepend k vNew ttl now).store k = some ⟨vOld, eOld⟩ := by
    rw [hstore, hold]
    simp
  refine ⟨hhead, prepend_raw_keys s k vNew ttl now hnd, ?_⟩
  intro halive
  simp [ExpiringStore.get, hhead, halive]

/-- C9 witness: the key `k` of the concrete store (value `"v"`, deadline
5) is prepended with a new value and a ttl at time 0; at time 0 the old
value is still returned and the old entry is intact. -/
theorem C9_witness :
    dictGet (sampleStore.prepend "k" (PyVal.str "w") (some 100) 0).store "k" =
        some ⟨PyVal.str "v", some 5⟩
    ∧ ((sampleStore.prepend "k" (PyVal.str "w") (some 100) 0).get "k" PyVal.none 0).1 =
        PyVal.str "v" := by
  have h := C9_prepend_keeps_old_entry sampleStore "k" (PyVal.str "v") (PyVal.str "w")
    PyVal.none (some 5) (some 100) 0 0 (by decide) rfl
  exact ⟨h.1, h.2.2 (by decide)⟩

/-! ### Claim C10: a stored None is invisible to the contains check -/

/-- The body of `CommandHandler._handle_del` (shared by DEL and LPOP):
membership goes through `__contains__`, deletion through
`__delitem__`; a KeyError would propagate (Option.none). -/
def handleDel (s : ExpiringStore) (key : String) (now : Nat) :
    Option (String × ExpiringStore) :=
  let c := s.contains key now
  if c.1 then (c.2.delitem key).map (fun s2 => ("OK", s2))
  else some ("NULL", c.2)

/-- C10: a key stored with value None and not expired is reported absent
by the contains check, so the DEL/LPOP handler replies NULL and the
entry stays in the store. -/
theorem C10_none_value_invisible (s : ExpiringStore) (k : String) (now : Nat)
    (e : Option Nat)
    (hentry : dictGet s.store k = some ⟨PyVal.none, e⟩)
    (halive : aliveForGet e now = true) :
    (s.contains k now).1 = false
    ∧ (s.contains k now).2 = s
    ∧ handleDel s k now = some ("NULL", s)
    ∧ dictGet ((s.contains k now).2).store k = some ⟨PyVal.none, e⟩ := by
  have hget : s.get k PyVal.none now = (PyVal.none, s) := by
    simp [ExpiringStore.get, hentry, halive]
  have hc : s.contains k now = (false, s) := by
    simp [ExpiringStore.contains, hget, PyVal.isNone]
  refine ⟨by rw [hc], by rw [hc], ?_, ?_⟩
  · unfold handleDel
    rw [hc]
    simp
  · rw [hc]
    exact hentry

/-- C10 witness: a store holding None under `n` with no deadline. -/
theorem C10_witness :
    (ExpiringStore.contains ⟨[("n", ⟨PyVal.none, Option.none⟩)], Option.none⟩ "n" 3).1 = false
    ∧ handleDel ⟨[("n", ⟨PyVal.none, Option.none⟩)], Option.none⟩ "n" 3 =
        some ("NULL", ⟨[("n", ⟨PyVal.none, Option.none⟩)], Option.none⟩) := by
  have h := C10_none_value_invisible ⟨[("n", ⟨PyVal.none, Option.none⟩)], Option.none⟩
    "n" 3 Option.none rfl rfl
  exact ⟨h.1, h.2.2.1⟩

/-! ### CacheHandler (src/src/cache_handler.py)

The outer expiring store maps cache names to inner mappings; the inner
mapping is obtained by reference, so in-place mutation of it is modelled
by rewriting the value of the outer entry while keeping its expiry and
position (`storeUpdateValue`).  Statistics live in a separate dict.
A Python exception (KeyError on a missing stats block, TypeError on a
non-dict value) is modelled as Option.none. -/

structure CacheStats where
  hits : Nat
  misses : Nat
  items : Nat
  last_access : Nat
  last_write : Nat
  created_at : Nat

/-- `CacheStats()`: all counters zero (`created_at`, a module-load time
constant in the source, is modelled as 0). -/
def CacheStats.init : CacheStats := ⟨0, 0, 0, 0, 0, 0⟩

structure CacheHandler where
  store : ExpiringStore
  stats : List (String × CacheStats)

/-- In-place mutation of the inner mapping through the reference
returned by `get`: the outer entry keeps its position and expiry. -/
def storeUpdateValue (s : ExpiringStore) (key : String) (newValue : PyVal) :
    ExpiringStore :=
  ⟨s.store.map (fun p => if p.1 = key then (p.1, ⟨newValue, p.2.expiry⟩) else p),
   s.default_ttl⟩

theorem dictGet_mapValue {β : Type} (l : List (String × β)) (k k2 : String) (g : β → β) :
    dictGet (l.map (fun p => if p.1 = k then (p.1, g p.2) else p)) k2 =
      if k2 = k then (dictGet l k).map g else dictGet l k2 := by
  induction l with
  | nil => by_cases h : k2 = k <;> simp [h]
  | cons p rest ih =>
      obtain ⟨k1, v1⟩ := p
      by_cases h1 : k1 = k
      · by_cases h2 : k1 = k2
        · have e2 : k2 = k := by
            rw [← h2]
            exact h1
          simp [h1, h2, e2]
        · have e2 : ¬ k2 = k := fun hx => h2 (by rw [h1, ← hx])
          have e3 : ¬ k = k2 := fun hx => e2 hx.symm
          simp [h1, h2, e2, e3, ih]
      · by_cases h2 : k1 = k2
        · have e2 : ¬ k2 = k := fun hx => h1 (by rw [h2, hx])
          simp [h1, h2, e2]
        · simp [h1, h2, ih]

theorem dictKeys_mapValue {β : Type} (l : List (String × β)) (k : String) (g : β → β) :
    dictKeys (l.map (fun p => if p.1 = k then (p.1, g p.2) else p)) = dictKeys l := by
  induction l with
  | nil => rfl
  | cons p rest ih =>
      obtain ⟨k1, v1⟩ := p
      by_cases h1 : k1 = k
      · simp [h1, ih]
      · simp [h1, ih]

theorem dictDel_sublist {β : Type} (l : List (String × β)) (k : String) :
    List.Sublist (dictDel l k) l := by
  induction l with
  | nil => simp [dictDel]
  | cons p rest ih =>
      obtain ⟨k1, v1⟩ := p
      by_cases h1 : k1 = k
      · have hd : dictDel ((k1, v1) :: rest) k = rest := by simp [dictDel, h1]
        rw [hd]
        exact List.sublist_cons_self (k1, v1) rest
      · simpa [dictDel, h1] using List.Sublist.cons₂ (k1, v1) ih

theorem dictNodup_dictDel {β : Type} (l : List (String × β)) (k : String)
    (h : (dictKeys l).Nodup) : (dictKeys (dictDel l k)).Nodup :=
  List.Nodup.sublist (List.Sublist.map Prod.fst (dictDel_sublist l k)) h

/-! Helper characterizations of `ExpiringStore.get` by raw lookup. -/

theorem get_of_raw_none (s : ExpiringStore) (k : String) (d : PyVal) (now : Nat)
    (h : dictGet s.store k = Option.none) : s.get k d now = (d, s) := by
  simp [ExpiringStore.get, h]

theorem get_of_alive (s : ExpiringStore) (k : String) (d : PyVal) (now : Nat)
    (ent : Entry) (h : dictGet s.store k = some ent)
    (ha : aliveForGet ent.expiry now = true) : s.get k d now = (ent.value, s) := by
  simp [ExpiringStore.get, h, ha]

theorem get_of_dead (s : ExpiringStore) (k : String) (d : PyVal) (now : Nat)
    (ent : Entry) (h : dictGet s.store k = some ent)
    (ha : aliveForGet ent.expiry now = false) :
    s.get k d now = (d, ⟨dictDel s.store k, s.default_ttl⟩) := by
  simp [ExpiringStore.get, h, ha]

/-- `CacheHandler.create_cache`: refuses an existing (live) cache,
otherwise installs an empty inner mapping (no explicit ttl, so the
outer store default applies) and a fresh stats block. -/
def CacheHandler.create_cache (h : CacheHandler) (cache_name : String) (now : Nat) :
    Bool × CacheHandler :=
  match h.store.get cache_name PyVal.none now with
  | (PyVal.none, s1) =>
      (true, ⟨s1.set cache_name (PyVal.dict []) Option.none now,
        dictSet h.stats cache_name CacheStats.init⟩)
  | (_, s1) => (false, { h with store := s1 })

/-- `CacheHandler.delete_cache`: a membership probe followed by raw
deletion; the stats block is left behind and no event is triggered
(the method body contains no trigger call). -/
def CacheHandler.delete_cache (h : CacheHandler) (cache_name : String) (now : Nat) :
    Option (Bool × CacheHandler) :=
  match h.store.contains cache_name now with
  | (true, s1) =>
      (s1.delitem cache_name).map (fun s2 => (true, { h with store := s2 }))
  | (false, s1) => some (false, { h with store := s1 })

/-- `CacheHandler.set`: fetches the inner mapping by reference (creating
cache and stats block if absent, with the supplied ttl as the ttl of the
outer entry), stores the key, then refreshes `items` and `last_write`
on the stats block looked up by name.  A stats KeyError, or an in-place
update on a non-dict value, is Option.none. -/
def CacheHandler.set (h : CacheHandler) (cache_name key : String) (value : PyVal)
    (ttl : Option Nat) (now : Nat) : Option (Bool × CacheHandler) :=
  match h.store.get cache_name PyVal.none now with
  | (PyVal.none, s1) =>
      let d2 := dictSet [] key value
      let s3 := storeUpdateValue (s1.set cache_name (PyVal.dict []) ttl now)
        cache_name (PyVal.dict d2)
      let stats2 := dictSet h.stats cache_name CacheStats.init
      match dictGet stats2 cache_name with
      | some st => some (true,
          ⟨s3, dictSet stats2 cache_name
            { st with items := d2.length, last_write := now }⟩)
      | Option.none => Option.none
  | (PyVal.dict d, s1) =>
      let d2 := dictSet d key value
      let s3 := storeUpdateValue s1 cache_name (PyVal.dict d2)
      match dictGet h.stats cache_name with
      | some st => some (true,
          ⟨s3, dictSet h.stats cache_name
            { st with items := d2.length, last_write := now }⟩)
      | Option.none => Option.none
  | _ => Option.none

/-- `CacheHandler.delete`: removes one key from the inner mapping by
reference; the stats block is not touched at all. -/
def CacheHandler.delete (h : CacheHandler) (cache_name key : String) (now : Nat) :
    Option (Bool × CacheHandler) :=
  match h.store.get cache_name PyVal.none now with
  | (PyVal.none, s1) => some (false, { h with store := s1 })
  | (PyVal.dict d, s1) =>
      if (dictGet d key).isSome then
        some (true,
          ⟨storeUpdateValue s1 cache_name (PyVal.dict (dictDel d key)), h.stats⟩)
      else some (false, { h with store := s1 })
  | _ => Option.none

/-- `CacheHandler.clear_cache`: empties the inner mapping in place and
zeroes `items` when a stats block exists. -/
def CacheHandler.clear_cache (h : CacheHandler) (cache_name : String) (now : Nat) :
    Option (Bool × CacheHandler) :=
  match h.store.get cache_name PyVal.none now with
  | (PyVal.none, s1) => some (false, { h with store := s1 })
  | (PyVal.dict _, s1) =>
      let s3 := storeUpdateValue s1 cache_name (PyVal.dict [])
      let stats2 := match dictGet h.stats cache_name with
        | some st => dictSet h.stats cache_name { st with items := 0 }
        | Option.none => h.stats
      some (true, ⟨s3, stats2⟩)
  | _ => Option.none


/-! Equation lemmas: one per guarded branch of the handler methods. -/

theorem contains_eq (s : ExpiringStore) (k : String) (now : Nat) :
    s.contains k now =
      (!((s.get k PyVal.none now).1.isNone), (s.get k PyVal.none now).2) := rfl

theorem store_set_eq (s : ExpiringStore) (k : String) (v : PyVal)
    (ttl : Option Nat) (now : Nat) :
    (s.set k v ttl now).store =
      dictSet s.store k ⟨v, ttlExpiry (match ttl with
        | some t => some t
        | Option.none => s.default_ttl) now⟩ := rfl

theorem delete_cache_eq_true (h : CacheHandler) (c : String) (now : Nat)
    (s1 : ExpiringStore) (hcont : h.store.contains c now = (true, s1)) :
    h.delete_cache c now =
      (s1.delitem c).map (fun s2 => (true, { h with store := s2 })) := by
  unfold CacheHandler.delete_cache
  rw [hcont]

theorem delete_cache_eq_false (h : CacheHandler) (c : String) (now : Nat)
    (s1 : ExpiringStore) (hcont : h.store.contains c now = (false, s1)) :
    h.delete_cache c now = some (false, { h with store := s1 }) := by
  unfold CacheHandler.delete_cache
  rw [hcont]

theorem set_eq_createBranch (h : CacheHandler) (c key : String) (value : PyVal)
    (ttl : Option Nat) (now : Nat) (s1 : ExpiringStore)
    (hget : h.store.get c PyVal.none now = (PyVal.none, s1)) :
    h.set c key value ttl now = some (true,
      ⟨storeUpdateValue (s1.set c (PyVal.dict []) ttl now) c
          (PyVal.dict (dictSet [] key value)),
        dictSet (dictSet h.stats c CacheStats.init) c
          { CacheStats.init with
              items := (dictSet ([] : List (String × PyVal)) key value).length,
              last_write := now }⟩) := by
  unfold CacheHandler.set
  rw [hget]
  simp only [dictGet_dictSet_self]

theorem set_eq_updateBranch (h : CacheHandler) (c key : String) (value : PyVal)
    (ttl : Option Nat) (now : Nat) (s1 : ExpiringStore)
    (d0 : List (String × PyVal)) (st : CacheStats)
    (hget : h.store.get c PyVal.none now = (PyVal.dict d0, s1))
    (hstats : dictGet h.stats c = some st) :
    h.set c key value ttl now = some (true,
      ⟨storeUpdateValue s1 c (PyVal.dict (dictSet d0 key value)),
        dictSet h.stats c
          { st with items := (dictSet d0 key value).length, last_write := now }⟩) := by
  unfold CacheHandler.set
  rw [hget]
  simp only [hstats]

theorem set_eq_str (h : CacheHandler) (c key : String) (value : PyVal)
    (ttl : Option Nat) (now : Nat) (s1 : ExpiringStore) (t : String)
    (hget : h.store.get c PyVal.none now = (PyVal.str t, s1)) :
    h.set c key value ttl now = Option.none := by
  unfold CacheHandler.set
  rw [hget]

theorem set_eq_int (h : CacheHandler) (c key : String) (value : PyVal)
    (ttl : Option Nat) (now : Nat) (s1 : ExpiringStore) (n : Int)
    (hget : h.store.get c PyVal.none now = (PyVal.int n, s1)) :
    h.set c key value ttl now = Option.none := by
  unfold CacheHandler.set
  rw [hget]

theorem clear_eq_none (h : CacheHandler) (c : String) (now : Nat)
    (s1 : ExpiringStore)
    (hget : h.store.get c PyVal.none now = (PyVal.none, s1)) :
    h.clear_cache c now = some (false, { h with store := s1 }) := by
  unfold CacheHandler.clear_cache
  rw [hget]

theorem clear_eq_dict (h : CacheHandler) (c : String) (now : Nat)
    (s1 : ExpiringStore) (d0 : List (String × PyVal)) (st : CacheStats)
    (hget : h.store.get c PyVal.none now = (PyVal.dict d0, s1))
    (hstats : dictGet h.stats c = some st) :
    h.clear_cache c now = some (true,
      ⟨storeUpdateValue s1 c (PyVal.dict []),
        dictSet h.stats c { st with items := 0 }⟩) := by
  unfold CacheHandler.clear_cache
  rw [hget]
  simp only [hstats]

theorem clear_eq_str (h : CacheHandler) (c : String) (now : Nat)
    (s1 : ExpiringStore) (t : String)
    (hget : h.store.get c PyVal.none now = (PyVal.str t, s1)) :
    h.clear_cache c now = Option.none := by
  unfold CacheHandler.clear_cache
  rw [hget]

theorem clear_eq_int (h : CacheHandler) (c : String) (now : Nat)
    (s1 : ExpiringStore) (n : Int)
    (hget : h.store.get c PyVal.none now = (PyVal.int n, s1)) :
    h.clear_cache c now = Option.none := by
  unfold CacheHandler.clear_cache
  rw [hget]

theorem create_eq_none (h : CacheHandler) (c : String) (now : Nat)
    (s1 : ExpiringStore)
    (hget : h.store.get c PyVal.none now = (PyVal.none, s1)) :
    h.create_cache c now = (true,
      ⟨s1.set c (PyVal.dict []) Option.none now,
        dictSet h.stats c CacheStats.init⟩) := by
  unfold CacheHandler.create_cache
  rw [hget]

theorem create_eq_dict (h : CacheHandler) (c : String) (now : Nat)
    (s1 : ExpiringStore) (d0 : List (String × PyVal))
    (hget : h.store.get c PyVal.none now = (PyVal.dict d0, s1)) :
    h.create_cache c now = (false, { h with store := s1 }) := by
  unfold CacheHandler.create_cache
  rw [hget]

theorem create_eq_str (h : CacheHandler) (c : String) (now : Nat)
    (s1 : ExpiringStore) (t : String)
    (hget : h.store.get c PyVal.none now = (PyVal.str t, s1)) :
    h.create_cache c now = (false, { h with store := s1 }) := by
  unfold CacheHandler.create_cache
  rw [hget]

theorem create_eq_int (h : CacheHandler) (c : String) (now : Nat)
    (s1 : ExpiringStore) (n : Int)
    (hget : h.store.get c PyVal.none now = (PyVal.int n, s1)) :
    h.create_cache c now = (false, { h with store := s1 }) := by
  unfold CacheHandler.create_cache
  rw [hget]

/-! ### Claim C1: delete_cache -/

/-- A concrete handler: one live cache `c` with one key, stats items 1. -/
def c1Handler : CacheHandler :=
  ⟨⟨[("c", ⟨PyVal.dict [("k1", PyVal.str "v1")], Option.none⟩)], Option.none⟩,
   [("c", ⟨0, 0, 1, 0, 0, 0⟩)]⟩

/-- C1 counterexample: deleting cache `c` succeeds, but the stats block
of `c` survives untouched — items is still 1, neither zeroed nor
removed — refuting the claimed stats clearing (the method body also
contains no event trigger at all). -/
theorem C1_counterexample :
    (c1Handler.delete_cache "c" 0).map (fun r => (r.1, dictGet r.2.stats "c")) =
      some (true, some ⟨0, 0, 1, 0, 0, 0⟩) := rfl

/-- C1 (amended): deleting an existing live cache returns True and
removes the outer entry together with all contained keys, leaving other
caches untouched; the stats block survives unchanged and no event is
emitted (the method body triggers none); an immediately repeated
delete_cache of the same name returns False and changes nothing. -/
theorem C1_delete_cache_outer_only (h : CacheHandler) (c : String) (now : Nat)
    (hnd : (dictKeys h.store.store).Nodup)
    (d : List (String × PyVal)) (e : Option Nat)
    (hentry : dictGet h.store.store c = some ⟨PyVal.dict d, e⟩)
    (halive : aliveForGet e now = true) :
    ∃ h2, h.delete_cache c now = some (true, h2)
      ∧ dictGet h2.store.store c = Option.none
      ∧ h2.stats = h.stats
      ∧ (∀ c2, c2 ≠ c → dictGet h2.store.store c2 = dictGet h.store.store c2)
      ∧ h2.delete_cache c now = some (false, h2) := by
  have hget : h.store.get c PyVal.none now = (PyVal.dict d, h.store) :=
    get_of_alive h.store c PyVal.none now ⟨PyVal.dict d, e⟩ hentry halive
  have hcont : h.store.contains c now = (true, h.store) := by
    rw [contains_eq, hget]
    rfl
  have hdel : h.store.delitem c =
      some ⟨dictDel h.store.store c, h.store.default_ttl⟩ := by
    simp [ExpiringStore.delitem, hentry]
  refine ⟨⟨⟨dictDel h.store.store c, h.store.default_ttl⟩, h.stats⟩, ?_, ?_, rfl, ?_, ?_⟩
  · rw [delete_cache_eq_true h c now h.store hcont, hdel]
    rfl
  · exact dictGet_dictDel_self h.store.store c hnd
  · intro c2 hc2
    exact dictGet_dictDel_ne h.store.store c c2 (fun hx => hc2 hx.symm)
  · set h2 : CacheHandler :=
      ⟨⟨dictDel h.store.store c, h.store.default_ttl⟩, h.stats⟩ with hh2
    have hraw2 : dictGet h2.store.store c = Option.none :=
      dictGet_dictDel_self h.store.store c hnd
    have hget2 : h2.store.get c PyVal.none now = (PyVal.none, h2.store) :=
      get_of_raw_none h2.store c PyVal.none now hraw2
    have hcont2 : h2.store.contains c now = (false, h2.store) := by
      rw [contains_eq, hget2]
      rfl
    rw [delete_cache_eq_false h2 c now h2.store hcont2]

/-- C1 witness: the amended theorem applied to the concrete handler. -/
theorem C1_witness :
    ∃ h2, c1Handler.delete_cache "c" 0 = some (true, h2)
      ∧ dictGet h2.store.store "c" = Option.none
      ∧ h2.stats = c1Handler.stats
      ∧ (∀ c2, c2 ≠ "c" → dictGet h2.store.store c2 = dictGet c1Handler.store.store c2)
      ∧ h2.delete_cache "c" 0 = some (false, h2) :=
  C1_delete_cache_outer_only c1Handler "c" 0 (by decide)
    [("k1", PyVal.str "v1")] Option.none rfl rfl

/-! ### Claim C2: the items statistic -/

theorem dictGet_storeUpdateValue (s : ExpiringStore) (key : String) (nv : PyVal)
    (k2 : String) :
    dictGet (storeUpdateValue s key nv).store k2 =
      if k2 = key then (dictGet s.store key).map (fun ent => ⟨nv, ent.expiry⟩)
      else dictGet s.store k2 :=
  dictGet_mapValue s.store key k2 (fun ent => ⟨nv, ent.expiry⟩)

theorem dictKeys_storeUpdateValue (s : ExpiringStore) (key : String) (nv : PyVal) :
    dictKeys (storeUpdateValue s key nv).store = dictKeys s.store :=
  dictKeys_mapValue s.store key (fun ent => ⟨nv, ent.expiry⟩)

theorem get_cases (s : ExpiringStore) (k : String) (d : PyVal) (now : Nat) :
    (dictGet s.store k = Option.none ∧ s.get k d now = (d, s))
    ∨ (∃ ent, dictGet s.store k = some ent ∧ aliveForGet ent.expiry now = true ∧
        s.get k d now = (ent.value, s))
    ∨ (∃ ent, dictGet s.store k = some ent ∧ aliveForGet ent.expiry now = false ∧
        s.get k d now = (d, ⟨dictDel s.store k, s.default_ttl⟩)) := by
  cases hr : dictGet s.store k with
  | none => exact Or.inl ⟨rfl, get_of_raw_none s k d now hr⟩
  | some ent =>
      cases ha : aliveForGet ent.expiry now with
      | true => exact Or.inr (Or.inl ⟨ent, rfl, ha, get_of_alive s k d now ent hr ha⟩)
      | false => exact Or.inr (Or.inr ⟨ent, rfl, ha, get_of_dead s k d now ent hr ha⟩)

/-- The items invariant: the outer store has no duplicate cache names,
and whenever cache `c` is raw-present with inner mapping `d`, a stats
block for `c` exists whose `items` equals the size of `d`. -/
def cacheInv (h : CacheHandler) (c : String) : Prop :=
  (dictKeys h.store.store).Nodup ∧
  ∀ d e, dictGet h.store.store c = some ⟨PyVal.dict d, e⟩ →
    ∃ st, dictGet h.stats c = some st ∧ st.items = d.length

theorem cacheInv_of_update (sbase : ExpiringStore)
    (statsbase : List (String × CacheStats)) (c : String)
    (d2 : List (String × PyVal)) (st : CacheStats)
    (hnd : (dictKeys sbase.store).Nodup)
    (hitems : st.items = d2.length) :
    cacheInv ⟨storeUpdateValue sbase c (PyVal.dict d2), dictSet statsbase c st⟩ c := by
  constructor
  · rw [dictKeys_storeUpdateValue]
    exact hnd
  · intro d e hd
    rw [dictGet_storeUpdateValue] at hd
    simp at hd
    obtain ⟨a, ha, hdd, he⟩ := hd
    refine ⟨st, dictGet_dictSet_self statsbase c st, ?_⟩
    rw [hitems, hdd]

theorem set_preserves_inv (h : CacheHandler) (c key : String) (value : PyVal)
    (ttl : Option Nat) (now : Nat) (hinv : cacheInv h c)
    (r : Bool × CacheHandler)
    (hset : h.set c key value ttl now = some r) : cacheInv r.2 c := by
  rcases get_cases h.store c PyVal.none now with ⟨hraw, hget⟩ |
    ⟨ent, hraw, ha, hget⟩ | ⟨ent, hraw, ha, hget⟩
  · rw [set_eq_createBranch h c key value ttl now h.store hget] at hset
    have he := Option.some.inj hset
    subst he
    exact cacheInv_of_update _ _ c _ _
      (by rw [store_set_eq]; exact dictNodup_dictSet _ _ _ hinv.1) rfl
  · obtain ⟨v0, e0⟩ := ent
    cases v0 with
    | none =>
        rw [set_eq_createBranch h c key value ttl now h.store hget] at hset
        have he := Option.some.inj hset
        subst he
        exact cacheInv_of_update _ _ c _ _
          (by rw [store_set_eq]; exact dictNodup_dictSet _ _ _ hinv.1) rfl
    | dict d0 =>
        obtain ⟨st, hstats, hitems⟩ := hinv.2 d0 e0 hraw
        rw [set_eq_updateBranch h c key value ttl now h.store d0 st hget hstats] at hset
        have he := Option.some.inj hset
        subst he
        exact cacheInv_of_update _ _ c _ _ hinv.1 rfl
    | str t =>
        rw [set_eq_str h c key value ttl now h.store t hget] at hset
        simp at hset
    | int n =>
        rw [set_eq_int h c key value ttl now h.store n hget] at hset
        simp at hset
  · rw [set_eq_createBranch h c key value ttl now _ hget] at hset
    have he := Option.some.inj hset
    subst he
    refine cacheInv_of_update _ _ c _ _ ?_ rfl
    rw [store_set_eq]
    exact dictNodup_dictSet _ _ _ (dictNodup_dictDel _ _ hinv.1)

theorem clear_preserves_inv (h : CacheHandler) (c : String) (now : Nat)
    (hinv : cacheInv h c) (r : Bool × CacheHandler)
    (hclear : h.clear_cache c now = some r) : cacheInv r.2 c := by
  rcases get_cases h.store c PyVal.none now with ⟨hraw, hget⟩ |
    ⟨ent, hraw, ha, hget⟩ | ⟨ent, hraw, ha, hget⟩
  · rw [clear_eq_none h c now h.store hget] at hclear
    have he := Option.some.inj hclear
    subst he
    exact hinv
  · obtain ⟨v0, e0⟩ := ent
    cases v0 with
    | none =>
        rw [clear_eq_none h c now h.store hget] at hclear
        have he := Option.some.inj hclear
        subst he
        exact hinv
    | dict d0 =>
        obtain ⟨st, hstats, hitems⟩ := hinv.2 d0 e0 hraw
        rw [clear_eq_dict h c now h.store d0 st hget hstats] at hclear
        have he := Option.some.inj hclear
        subst he
        exact cacheInv_of_update h.store h.stats c [] _ hinv.1 rfl
    | str t =>
        rw [clear_eq_str h c now h.store t hget] at hclear
        simp at hclear
    | int n =>
        rw [clear_eq_int h c now h.store n hget] at hclear
        simp at hclear
  · rw [clear_eq_none h c now _ hget] at hclear
    have he := Option.some.inj hclear
    subst he
    constructor
    · exact dictNodup_dictDel _ _ hinv.1
    · intro d e hd
      rw [dictGet_dictDel_self _ _ hinv.1] at hd
      cases hd

theorem create_preserves_inv (h : CacheHandler) (c : String) (now : Nat)
    (hinv : cacheInv h c) : cacheInv (h.create_cache c now).2 c := by
  rcases get_cases h.store c PyVal.none now with ⟨hraw, hget⟩ |
    ⟨ent, hraw, ha, hget⟩ | ⟨ent, hraw, ha, hget⟩
  · rw [create_eq_none h c now h.store hget]
    constructor
    · rw [store_set_eq]
      exact dictNodup_dictSet _ _ _ hinv.1
    · intro d e hd
      rw [store_set_eq, dictGet_dictSet_self] at hd
      simp at hd
      obtain ⟨hdd, he⟩ := hd
      refine ⟨CacheStats.init, dictGet_dictSet_self _ _ _, ?_⟩
      rw [hdd]
      rfl
  · obtain ⟨v0, e0⟩ := ent
    cases v0 with
    | none =>
        rw [create_eq_none h c now h.store hget]
        constructor
        · rw [store_set_eq]
          exact dictNodup_dictSet _ _ _ hinv.1
        · intro d e hd
          rw [store_set_eq, dictGet_dictSet_self] at hd
          simp at hd
          obtain ⟨hdd, he⟩ := hd
          refine ⟨CacheStats.init, dictGet_dictSet_self _ _ _, ?_⟩
          rw [hdd]
          rfl
    | dict d0 =>
        rw [create_eq_dict h c now h.store d0 hget]
        exact hinv
    | str t =>
        rw [create_eq_str h c now h.store t hget]
        exact hinv
    | int n =>
        rw [create_eq_int h c now h.store n hget]
        exact hinv
  · rw [create_eq_none h c now _ hget]
    constructor
    · rw [store_set_eq]
      exact dictNodup_dictSet _ _ _ (dictNodup_dictDel _ _ hinv.1)
    · intro d e hd
      rw [store_set_eq, dictGet_dictSet_self] at hd
      simp at hd
      obtain ⟨hdd, he⟩ := hd
      refine ⟨CacheStats.init, dictGet_dictSet_self _ _ _, ?_⟩
      rw [hdd]
      rfl

/-- The operations of the claim restricted to one cache name (delete is
deliberately absent: it falsifies the invariant, see the
counterexample). -/
inductive CacheOp : Type where
  | setOp : String → PyVal → Option Nat → Nat → CacheOp
  | clearOp : Nat → CacheOp
  | createOp : Nat → CacheOp

def applyOp (h : CacheHandler) (c : String) : CacheOp → Option CacheHandler
  | CacheOp.setOp key value ttl now => (h.set c key value ttl now).map Prod.snd
  | CacheOp.clearOp now => (h.clear_cache c now).map Prod.snd
  | CacheOp.createOp now => some (h.create_cache c now).2

def applyOps (h : CacheHandler) (c : String) : List CacheOp → Option CacheHandler
  | [] => some h
  | op :: ops =>
      match applyOp h c op with
      | some h1 => applyOps h1 c ops
      | Option.none => Option.none

theorem applyOp_preserves_inv (h : CacheHandler) (c : String) (op : CacheOp)
    (hinv : cacheInv h c) (h1 : CacheHandler) (happ : applyOp h c op = some h1) :
    cacheInv h1 c := by
  cases op with
  | setOp key value ttl now =>
      simp only [applyOp, Option.map_eq_some'] at happ
      obtain ⟨r, hr, hsnd⟩ := happ
      subst hsnd
      exact set_preserves_inv h c key value ttl now hinv r hr
  | clearOp now =>
      simp only [applyOp, Option.map_eq_some'] at happ
      obtain ⟨r, hr, hsnd⟩ := happ
      subst hsnd
      exact clear_preserves_inv h c now hinv r hr
  | createOp now =>
      have he := Option.some.inj happ
      subst he
      exact create_preserves_inv h c now hinv

/-- A concrete handler: cache `c` holds two keys but, after a delete,
stats will still claim items = 2. -/
def c2Handler : CacheHandler :=
  ⟨⟨[("c", ⟨PyVal.dict [("a", PyVal.str "1"), ("b", PyVal.str "2")], Option.none⟩)],
    Option.none⟩,
   [("c", ⟨0, 0, 2, 0, 0, 0⟩)]⟩

/-- C2 counterexample: deleting key `a` from cache `c` succeeds and
leaves the inner mapping with a single key, yet the stats block still
records items = 2, so items no longer equals the number of keys. -/
theorem C2_counterexample :
    (c2Handler.delete "c" "a" 0).map
        (fun r => (r.1, dictGet r.2.store.store "c", dictGet r.2.stats "c")) =
      some (true, some ⟨PyVal.dict [("b", PyVal.str "2")], Option.none⟩,
        some ⟨0, 0, 2, 0, 0, 0⟩) := rfl

/-- C2 (amended): the items statistic tracks the current size of the
inner mapping across any sequence of create_cache, set and clear_cache
operations on the cache (delete is excluded: it removes the key but
leaves items stale). -/
theorem C2_items_tracks_size (c : String) (ops : List CacheOp) :
    ∀ h : CacheHandler, cacheInv h c →
      ∀ h2, applyOps h c ops = some h2 → cacheInv h2 c := by
  induction ops with
  | nil =>
      intro h hinv h2 hh
      have he := Option.some.inj hh
      subst he
      exact hinv
  | cons op rest ih =>
      intro h hinv h2 hh
      unfold applyOps at hh
      cases hop : applyOp h c op with
      | none =>
          rw [hop] at hh
          exact absurd hh (by simp)
      | some h1 =>
          rw [hop] at hh
          exact ih h1 (applyOp_preserves_inv h c op hinv h1 hop) h2 hh

/-- C2 witness: starting from the empty handler, create cache `c` and
set one key; the invariant (and so items = 1) holds in the final state. -/
theorem C2_witness :
    cacheInv (⟨⟨[("c", ⟨PyVal.dict [("a", PyVal.str "1")], Option.none⟩)], Option.none⟩,
      [("c", ⟨0, 0, 1, 0, 0, 0⟩)]⟩ : CacheHandler) "c" :=
  C2_items_tracks_size "c"
    [CacheOp.createOp 0, CacheOp.setOp "a" (PyVal.str "1") Option.none 0]
    ⟨emptyStore, []⟩
    ⟨List.nodup_nil, fun d e hx => by simp [emptyStore] at hx⟩
    _ rfl

/-! ### Claim C3: boot-time loading of persisted caches -/

/-- Python str.endswith over the character list. -/
def strEndsWith (s suffix : String) : Bool :=
  List.isSuffixOf suffix.data s.data

/-- Python slicing `filename[:-5]`. -/
def strDropRight (s : String) (n : Nat) : String :=
  ⟨s.data.take (s.data.length - n)⟩

/-- `CacheHandler.persist` file naming: the gzip name when compression
is on (the constructor default), the plain name otherwise. -/
def persistFilename (cache_name : String) (compress : Bool) : String :=
  if compress then cache_name ++ ".json.gz" else cache_name ++ ".json"

/-- The file chosen by `CacheHandler.load_persistent`: the compressed
file wins when both exist, else the plain file, else nothing. -/
def load_persistent_file (filenames : List String) (cache_name : String) :
    Option String :=
  if filenames.contains (cache_name ++ ".json.gz") then
    some (cache_name ++ ".json.gz")
  else if filenames.contains (cache_name ++ ".json") then
    some (cache_name ++ ".json")
  else Option.none

/-- The directory scan of `CacheHandler._load_persistent_caches`: only
filenames that end in ".json" are recognized; the cache name is the
filename with its last five characters removed. -/
def bootScanNames (filenames : List String) : List String :=
  (filenames.filter (fun f => strEndsWith f ".json")).map (fun f => strDropRight f 5)

/-- The files actually read at boot: `load_persistent` is invoked once
per scanned name. -/
def bootLoadedFiles (filenames : List String) : List String :=
  (bootScanNames filenames).filterMap (fun n => load_persistent_file filenames n)

/-- C3: a persistence directory holding only the compressed snapshot —
exactly what `persist` writes under the default configuration — is
invisible to the boot scan, so nothing is loaded, although
`load_persistent` itself could have read that very file; only the
plain-json form is picked up at boot. -/
theorem C3_gz_snapshot_not_loaded_at_boot :
    persistFilename "mycache" true = "mycache.json.gz"
    ∧ bootScanNames ["mycache.json.gz"] = []
    ∧ bootLoadedFiles ["mycache.json.gz"] = []
    ∧ load_persistent_file ["mycache.json.gz"] "mycache" = some "mycache.json.gz"
    ∧ bootScanNames ["mycache.json"] = ["mycache"]
    ∧ bootLoadedFiles ["mycache.json"] = ["mycache.json"] := by
  refine ⟨rfl, ?_, ?_, ?_, ?_, ?_⟩ <;> decide

/-! ### Claim C7: command validation -/

inductive ArgTy : Type where
  | tstr : ArgTy
  | tint : ArgTy

structure CommandSpec where
  min_args : Nat
  max_args : Option Nat
  usage : String
  types : Option (List ArgTy)

/-- The registry COMMAND_SPECS of src/src/validator.py. -/
def COMMAND_SPECS : List (String × CommandSpec) := [
  ("PING", ⟨1, some 1, "PING", Option.none⟩),
  ("EXIT", ⟨1, some 1, "EXIT", Option.none⟩),
  ("EXPIRE", ⟨3, some 3, "EXPIRE key seconds",
    some [ArgTy.tstr, ArgTy.tstr, ArgTy.tint]⟩),
  ("SET", ⟨3, some 3, "SET key value", Option.none⟩),
  ("GET", ⟨2, some 2, "GET key", Option.none⟩),
  ("DEL", ⟨2, some 2, "DEL key", Option.none⟩),
  ("LPOP", ⟨2, some 2, "LPOP key", Option.none⟩),
  ("ECHO", ⟨2, Option.none, "ECHO message ...", Option.none⟩),
  ("LPUSH", ⟨3, some 3, "LPUSH key value", Option.none⟩),
  ("RPUSH", ⟨3, some 3, "RPUSH key value", Option.none⟩),
  ("INSPECT", ⟨1, some 1, "INSPECT", Option.none⟩)]

/-- Python str.upper over the character list (the verbs are ASCII). -/
def strUpper (s : String) : String :=
  ⟨s.data.map Char.toUpper⟩

/-- Python whitespace stripping of both ends. -/
def trimChars (cs : List Char) : List Char :=
  ((cs.dropWhile Char.isWhitespace).reverse.dropWhile Char.isWhitespace).reverse

def digitRun (cs : List Char) : Bool :=
  match cs with
  | [] => false
  | _ => cs.all Char.isDigit

/-- Python `int(str)` succeeds: optional surrounding whitespace, an
optional sign, then a nonempty digit run (underscore group separators
are not modelled). -/
def pyIntParses (s : String) : Bool :=
  match trimChars s.data with
  | [] => false
  | c :: rest => if c = '+' ∨ c = '-' then digitRun rest else digitRun (c :: rest)

/-- Python truthiness of the max_args field: None and 0 are falsy. -/
def optTruthy : Option Nat → Bool
  | Option.none => false
  | some m => decide (m ≠ 0)

/-- The type-validation loop: arguments from position 1 zipped with
types from position 1; the first int-typed argument failing conversion
yields its 1-based position. -/
def firstBadInt : List String → List ArgTy → Nat → Option Nat
  | a :: as, ArgTy.tint :: tys, i =>
      if pyIntParses a then firstBadInt as tys (i + 1) else some i
  | _ :: as, ArgTy.tstr :: tys, i => firstBadInt as tys (i + 1)
  | _, _, _ => Option.none

/-- `CommandValidator.validate`. -/
def validate (specs : List (String × CommandSpec)) (command_parts : List String) :
    Bool × String :=
  match command_parts with
  | [] => (false, "Empty command")
  | c0 :: _ =>
      let command := strUpper c0
      match dictGet specs command with
      | Option.none => (false, "Unknown command: " ++ command)
      | some spec =>
          let num_args := command_parts.length
          if num_args < spec.min_args then
            (false, "Too few arguments. Usage: " ++ spec.usage)
          else if optTruthy spec.max_args && decide (spec.max_args.getD 0 < num_args) then
            (false, "Too many arguments. Usage: " ++ spec.usage)
          else
            match spec.types with
            | Option.none => (true, "")
            | some tys =>
                match firstBadInt (command_parts.drop 1) (tys.drop 1) 1 with
                | some i => (false, "Argument " ++ toString i ++ " must be a number")
                | Option.none => (true, "")

/-- C7: validation applies its checks in order and stops at the first
failure — empty list, unknown upcased verb, too few tokens (usage
appended), too many tokens only for a bounded truthy max (ECHO, the
unbounded verb, accepts any arity of at least 2), a failing int
conversion at a typed position reported with its 1-based index
(EXPIRE position 2), and success otherwise; the unknown-command and
arity messages are distinct. -/
theorem C7_validate_order (specs : List (String × CommandSpec)) :
    (validate specs [] = (false, "Empty command"))
    ∧ (∀ c0 rest, dictGet specs (strUpper c0) = Option.none →
        validate specs (c0 :: rest) = (false, "Unknown command: " ++ strUpper c0))
    ∧ (∀ c0 rest spec, dictGet specs (strUpper c0) = some spec →
        (c0 :: rest).length < spec.min_args →
        validate specs (c0 :: rest) =
          (false, "Too few arguments. Usage: " ++ spec.usage))
    ∧ (∀ c0 rest spec m, dictGet specs (strUpper c0) = some spec →
        spec.min_args ≤ (c0 :: rest).length →
        spec.max_args = some m → 0 < m → m < (c0 :: rest).length →
        validate specs (c0 :: rest) =
          (false, "Too many arguments. Usage: " ++ spec.usage))
    ∧ (∀ args, args ≠ [] → validate COMMAND_SPECS ("ECHO" :: args) = (true, ""))
    ∧ (∀ k sarg, pyIntParses sarg = false →
        validate COMMAND_SPECS ["EXPIRE", k, sarg] =
          (false, "Argument 2 must be a number"))
    ∧ (∀ k sarg, pyIntParses sarg = true →
        validate COMMAND_SPECS ["EXPIRE", k, sarg] = (true, ""))
    ∧ ("Unknown command: FROB" ≠ "Too few arguments. Usage: SET key value"
        ∧ validate COMMAND_SPECS ["FROB"] = (false, "Unknown command: FROB")
        ∧ validate COMMAND_SPECS ["SET", "k"] =
            (false, "Too few arguments. Usage: SET key value")) := by
  refine ⟨rfl, ?_, ?_, ?_, ?_, ?_, ?_, ?_⟩
  · intro c0 rest h
    simp [validate, h]
  · intro c0 rest spec h hlt
    have hlt2 : rest.length + 1 < spec.min_args := by simpa using hlt
    simp [validate, h, hlt2]
  · intro c0 rest spec m h hmin hmax h0 hm
    have h1 : ¬ (rest.length + 1 < spec.min_args) := by
      simpa using Nat.not_lt.mpr hmin
    have h2 : m ≠ 0 := Nat.pos_iff_ne_zero.mp h0
    have hm2 : m < rest.length + 1 := by simpa using hm
    simp [validate, h, h1, hmax, optTruthy, h2, hm2]
  · intro args hne
    cases args with
    | nil => exact absurd rfl hne
    | cons a as =>
        have hspec : dictGet COMMAND_SPECS (strUpper "ECHO") =
            some ⟨2, Option.none, "ECHO message ...", Option.none⟩ := rfl
        have hlen : ¬ (("ECHO" :: a :: as).length < 2) := by
          simp only [List.length_cons]
          omega
        simp [validate, hspec, optTruthy, hlen]
  · intro k sarg hbad
    have hspec : dictGet COMMAND_SPECS (strUpper "EXPIRE") =
        some ⟨3, some 3, "EXPIRE key seconds",
          some [ArgTy.tstr, ArgTy.tstr, ArgTy.tint]⟩ := rfl
    simp [validate, hspec, optTruthy, firstBadInt, hbad]
    rfl
  · intro k sarg hgood
    have hspec : dictGet COMMAND_SPECS (strUpper "EXPIRE") =
        some ⟨3, some 3, "EXPIRE key seconds",
          some [ArgTy.tstr, ArgTy.tstr, ArgTy.tint]⟩ := rfl
    simp [validate, hspec, optTruthy, firstBadInt, hgood]
  · exact ⟨by decide, rfl, rfl⟩

/-- C7 witness: the validator evaluated on concrete commands through
the theorem. -/
theorem C7_witness :
    validate COMMAND_SPECS ["EXPIRE", "k", "abc"] =
      (false, "Argument 2 must be a number")
    ∧ validate COMMAND_SPECS ["EXPIRE", "k", "12"] = (true, "")
    ∧ validate COMMAND_SPECS ["ECHO", "hello"] = (true, "") :=
  ⟨(C7_validate_order COMMAND_SPECS).2.2.2.2.2.1 "k" "abc" (by decide),
   (C7_validate_order COMMAND_SPECS).2.2.2.2.2.2.1 "k" "12" (by decide),
   (C7_validate_order COMMAND_SPECS).2.2.2.2.1 ["hello"] (by decide)⟩

/-! ### Claim C8: observer failures are swallowed -/

/-- The context record delivered to every observer of an event. -/
structure EventContext where
  cache_name : String
  key : Option String

/-- An observer callback: receives the event context and the
observer-visible world and either returns the updated world or raises
(Except.error). -/
def Observer (σ : Type) : Type := EventContext → σ → Except String σ

/-- One callback inside the try/except-pass of the delivery loop: a
raising observer contributes nothing. -/
def runObserver {σ : Type} (f : Observer σ) (ctx : EventContext) (s : σ) : σ :=
  match f ctx s with
  | Except.ok s2 => s2
  | Except.error _ => s

/-- The delivery loop over one observer collection. -/
def fireList {σ : Type} (hs : List (Observer σ)) (ctx : EventContext) (s : σ) : σ :=
  hs.foldl (fun s2 f => runObserver f ctx s2) s

/-- `EventHandler.trigger_event` (the identical loop appears as
`CacheHandler._trigger_event`): cache-scoped observers first, then
global observers; each call is wrapped in try/except pass, so the
function always returns a state and never propagates an exception —
its return type is `σ`, not `Except String σ`. -/
def trigger_event {σ : Type} (cacheObs globalObs : List (Observer σ))
    (ctx : EventContext) (s : σ) : σ :=
  fireList globalObs ctx (fireList cacheObs ctx s)

theorem fireList_append {σ : Type} (hs1 hs2 : List (Observer σ))
    (ctx : EventContext) (s : σ) :
    fireList (hs1 ++ hs2) ctx s = fireList hs2 ctx (fireList hs1 ctx s) := by
  unfold fireList
  exact List.foldl_append _ _ hs1 hs2

/-- C8: an observer that raises is isolated — deleting it from the
delivery list does not change the result, so the exception never
reaches the triggering operation and every other observer, cache-scoped
or global, is still invoked on the same states. -/
theorem C8_observer_isolation (σ : Type) :
    (∀ (pre post ghs : List (Observer σ)) (f : Observer σ) (ctx : EventContext)
        (s : σ) (msg : String),
      f ctx (fireList pre ctx s) = Except.error msg →
      trigger_event (pre ++ f :: post) ghs ctx s =
        trigger_event (pre ++ post) ghs ctx s)
    ∧ (∀ (chs gpre gpost : List (Observer σ)) (g : Observer σ) (ctx : EventContext)
        (s : σ) (msg : String),
      g ctx (fireList gpre ctx (fireList chs ctx s)) = Except.error msg →
      trigger_event chs (gpre ++ g :: gpost) ctx s =
        trigger_event chs (gpre ++ gpost) ctx s) := by
  have hskip : ∀ (pre post : List (Observer σ)) (f : Observer σ)
      (ctx : EventContext) (s : σ) (msg : String),
      f ctx (fireList pre ctx s) = Except.error msg →
      fireList (pre ++ f :: post) ctx s = fireList (pre ++ post) ctx s := by
    intro pre post f ctx s msg hraise
    rw [fireList_append, fireList_append]
    have hone : fireList (f :: post) ctx (fireList pre ctx s) =
        fireList post ctx (fireList pre ctx s) := by
      show fireList post ctx (runObserver f ctx (fireList pre ctx s)) = _
      rw [runObserver, hraise]
    rw [hone]
  constructor
  · intro pre post ghs f ctx s msg hraise
    unfold trigger_event
    rw [hskip pre post f ctx s msg hraise]
  · intro chs gpre gpost g ctx s msg hraise
    unfold trigger_event
    rw [hskip gpre gpost g ctx (fireList chs ctx s) msg hraise]

/-- An observer that increments a Nat world. -/
def obsInc : Observer Nat := fun _ n => Except.ok (n + 1)

/-- An observer that always raises. -/
def obsBoom : Observer Nat := fun _ _ => Except.error "boom"

def sampleCtx : EventContext := ⟨"users", Option.none⟩

/-- C8 witness: with a raising observer between two counting observers
and one global counting observer, delivery equals the run without the
raiser, and all three surviving observers fire (the count reaches 3). -/
theorem C8_witness :
    trigger_event ([obsInc] ++ obsBoom :: [obsInc]) [obsInc] sampleCtx 0 =
      trigger_event ([obsInc] ++ [obsInc]) [obsInc] sampleCtx 0
    ∧ trigger_event ([obsInc] ++ [obsInc]) [obsInc] sampleCtx 0 = 3 :=
  ⟨(C8_observer_isolation Nat).1 [obsInc] [obsInc] [obsInc] obsBoom sampleCtx 0
      "boom" rfl, rfl⟩

end Raddish
